import Mathlib

/-!
Verification development for the discovery-and-subset retrieval engine of the
Herbie repository.  The repository snapshot ships only documentation for the
engine (the user guide, the GRIB2 background notes and the model-template
plugin guide); the engine's executable modules themselves are not present.
The definitions below therefore model the engine from its specification,
constrained by the documented index-file formats (wgrib2-style and
ECMWF/ecCodes-style index files in the GRIB2 background document) and the
documented configuration semantics (model names case insensitive, products
case sensitive, the overwrite flag, source priority order).
-/

namespace Herbie

set_option maxRecDepth 8000

/-! Character-level utilities used by the index-line parsers.  These are
written over `List Char` so that every parse of a concrete line reduces in
the kernel. -/

/-- Split a character list at every occurrence of the separator `c`.
The result always has at least one element, and has `k + 1` elements when
the separator occurs `k` times. -/
def splitOnChar (c : Char) : List Char → List (List Char)
  | [] => [[]]
  | a :: rest =>
      let r := splitOnChar c rest
      if a == c then [] :: r
      else
        match r with
        | [] => [[a]]
        | x :: xs => (a :: x) :: xs

/-- Numeric value of a decimal digit character, `none` for any other
character. -/
def digitVal? (c : Char) : Option Nat :=
  if c.isDigit then some (c.toNat - 48) else none

/-- Accumulate decimal digits into a natural number; fails on the first
non-digit character. -/
def natOfDigits (acc : Nat) : List Char → Option Nat
  | [] => some acc
  | c :: cs =>
      match digitVal? c with
      | some d => natOfDigits (acc * 10 + d) cs
      | none => none

/-- Parse a non-empty all-digit character list as a natural number. -/
def parseNat? : List Char → Option Nat
  | [] => none
  | c :: cs => natOfDigits 0 (c :: cs)

/-- Rejoin split fields with the separator `c` (inverse of `splitOnChar`
for the fields that remain after the leading ones are consumed). -/
def intercalChar (c : Char) : List (List Char) → List Char
  | [] => []
  | [x] => x
  | x :: y :: rest => x ++ c :: intercalChar c (y :: rest)

/-- Lowercase every character of a string.  This is the normalization the
engine applies to user-supplied model identifiers before template lookup
("Herbie turns all user input to lowercase"). -/
def lowerName (s : String) : String := String.mk (s.toList.map Char.toLower)

/-- Map a fallible function over a list, failing if any element fails.
Structural version of the Option-monad traversal, used so that proofs can
unfold it by plain recursion. -/
def mapOpt (f : α → Option β) : List α → Option (List β)
  | [] => some []
  | a :: t =>
      match f a, mapOpt f t with
      | some b, some bs => some (b :: bs)
      | _, _ => none

/-! Shared data model of the engine. -/

/-- Modelled from the spec: one addressable record of an Inventory.
The sequence number is 1-based; `byteStart` is absolute and inclusive;
`byteEnd` is absolute and inclusive, `none` meaning an open end (fetch to
end of file, allowed only for the final record).  The descriptive metadata
fields (variable, level, forecast step) are carried inside the synthesized
greppable `searchThis` field, as ":"-separated text, exactly as the index
line provides them. -/
structure InventoryRecord where
  seq : Nat
  byteStart : Nat
  byteEnd : Option Nat
  searchThis : String
deriving DecidableEq, Repr

/-- Modelled from the spec: a maximal contiguous run of selected records
collapsed into one HTTP byte range.  `gEnd = none` is an open-ended range
(to end of file). -/
structure SubsetGroup where
  gStart : Nat
  gEnd : Option Nat
deriving DecidableEq, Repr

/-- Modelled from the spec: the error taxonomy of the engine. -/
inductive HerbieError where
  | sourceExhausted
  | indexUnavailable
  | indexCorrupt
  | emptySelection
  | groupFetchFailed
  | byteCountMismatch
deriving DecidableEq, Repr

/-- Modelled from the spec: the observable state of the destination
artifact after an operation.  A failed operation leaves the artifact
removed or renamed to a `.partial` marker (modelled as
`markedIncomplete`), never in a state indistinguishable from a complete
file. -/
inductive ArtifactState where
  | absent
  | markedIncomplete
  | complete (bytes : List Nat)
deriving DecidableEq, Repr

/-! Index Parser, grammar A (wgrib2-style, colon-delimited).  A line reads
`seq:byteStart:metadata-fields...`; the byte end of record i is the byte
start of record i+1 minus one, and the last record's end is open. -/

/-- Modelled from the spec: the raw content of one parsed grammar-A line
before byte ends are assigned. -/
structure RawA where
  seq : Nat
  start : Nat
  meta : String
deriving DecidableEq, Repr

/-- Modelled from the spec: parse one grammar-A line
`seq:byteStart:metadata...`; fails unless the first two colon-delimited
fields are decimal numbers. -/
def parseLineA (line : String) : Option RawA :=
  match splitOnChar ':' line.toList with
  | seqF :: startF :: rest =>
      match parseNat? seqF, parseNat? startF with
      | some s, some b => some ⟨s, b, String.mk (intercalChar ':' rest)⟩
      | _, _ => none
  | _ => none

/-- Modelled from the spec: grammar-A records must arrive in ascending
sequence and byte order (part of the external grammar; input violating it
is not well-formed grammar A). -/
def ascendingA : List RawA → Bool
  | [] => true
  | [_] => true
  | a :: b :: rest => (a.seq < b.seq && a.start < b.start) && ascendingA (b :: rest)

/-- Byte end assigned to a grammar-A record given the records that follow
it: the next record's byte start minus one, or an open end when no record
follows. -/
def endFor (rest : List RawA) : Option Nat :=
  match rest with
  | [] => none
  | q :: _ => some (q.start - 1)

/-- Assign byte ends to parsed grammar-A lines, producing Inventory
records. -/
def assignEnds : List RawA → List InventoryRecord
  | [] => []
  | p :: rest => ⟨p.seq, p.start, endFor rest, p.meta⟩ :: assignEnds rest

/-- Modelled from the spec: parse grammar-A index content (one record per
line).  Any line that fails to parse, and any violation of the ascending
order the grammar requires, is a fatal `indexCorrupt` error with no
best-effort recovery. -/
def parseGrammarA (lines : List String) : Except HerbieError (List InventoryRecord) :=
  match mapOpt parseLineA lines with
  | none => .error .indexCorrupt
  | some ps => if ascendingA ps then .ok (assignEnds ps) else .error .indexCorrupt

/-! Index Parser, grammar B (ecCodes-style structured records).  Each line
is self-describing, stating an explicit byte offset and length; lines need
not arrive in monotonic order. -/

/-- Modelled from the spec: the raw content of one parsed grammar-B line:
explicit absolute byte offset, explicit positive length, and descriptive
metadata. -/
structure RawB where
  off : Nat
  len : Nat
  meta : String
deriving DecidableEq, Repr

/-- Modelled from the spec: parse one grammar-B line.  The structured
record is modelled as `offset,length,metadata...` with comma-separated
fields; a line whose offset or length field is not numeric, or whose
length is zero (an empty byte span is not a valid record), fails to
parse. -/
def parseLineB (line : String) : Option RawB :=
  match splitOnChar ',' line.toList with
  | offF :: lenF :: rest =>
      match parseNat? offF, parseNat? lenF with
      | some o, some l =>
          if l = 0 then none else some ⟨o, l, String.mk (intercalChar ',' rest)⟩
      | _, _ => none
  | _ => none

/-- Byte-offset order on raw grammar-B records. -/
def offLe (a b : RawB) : Prop := a.off ≤ b.off

instance : DecidableRel offLe := fun a b => Nat.decLe a.off b.off

instance : IsTotal RawB offLe := ⟨fun a b => Nat.le_total a.off b.off⟩

instance : IsTrans RawB offLe := ⟨fun _ _ _ => Nat.le_trans⟩

/-- Sort grammar-B records by byte offset (their input order need not be
monotonic, but the Inventory is kept in byte order). -/
def sortSpans (l : List RawB) : List RawB :=
  List.insertionSort offLe l

/-- Number sorted grammar-B records consecutively from `k` and compute
each record's inclusive byte end from its explicit offset and length. -/
def numberRecords (k : Nat) : List RawB → List InventoryRecord
  | [] => []
  | r :: rest => ⟨k, r.off, some (r.off + r.len - 1), r.meta⟩ :: numberRecords (k + 1) rest

/-- Modelled from the spec: parse grammar-B index content.  Lines that
fail to parse are skipped rather than aborting the parse; the Inventory of
the remaining records is returned together with the number of skipped
lines (the `PartialParseLoss` count). -/
def parseGrammarB (lines : List String) : List InventoryRecord × Nat :=
  let parsed := lines.filterMap parseLineB
  (numberRecords 1 (sortSpans parsed), lines.length - parsed.length)

/-! Inventory invariants. -/

/-- Byte-end discipline of a parsed grammar-A Inventory: every record with
a successor ends exactly one byte before that successor starts, and the
final record (alone) has an open byte end. -/
def wellFormedEnds : List InventoryRecord → Bool
  | [] => true
  | [r] => r.byteEnd == none
  | r :: s :: rest => (r.byteEnd == some (s.byteStart - 1)) && wellFormedEnds (s :: rest)

/-- Consecutive byte starts strictly increase. -/
def strictStarts : List InventoryRecord → Bool
  | [] => true
  | [_] => true
  | r :: s :: rest => (r.byteStart < s.byteStart) && strictStarts (s :: rest)

/-- Modelled from the spec: the Inventory invariant.  Records are totally
ordered by sequence number and by byte start, byte ranges of consecutive
records never overlap, and at most one record, the last, has an open byte
end. -/
def invariantOk : List InventoryRecord → Bool
  | [] => true
  | [_] => true
  | r :: s :: rest =>
      (r.seq < s.seq) && (r.byteStart < s.byteStart) &&
      (match r.byteEnd with
       | none => false
       | some e => e < s.byteStart) &&
      invariantOk (s :: rest)

/-- Disjointness of two explicit grammar-B byte spans. -/
def disjointSpans (a b : RawB) : Prop :=
  a.off + a.len ≤ b.off ∨ b.off + b.len ≤ a.off

instance : DecidableRel disjointSpans := fun a b => by
  unfold disjointSpans; infer_instance

/-- Validity of grammar-B input: the byte spans stated by the parsable
lines are pairwise disjoint absolute spans of the primary file. -/
def validSpansB (lines : List String) : Prop :=
  (lines.filterMap parseLineB).Pairwise disjointSpans

/-! Subset Selector. -/

/-- Modelled from the spec: the ordered subsequence of Inventory records
whose synthesized search field matches the user pattern.  The pattern is
modelled as its matching function on the search field; matching applies
the function to the field exactly as stored (case sensitive by design). -/
def selectRecords (pat : String → Bool) (inv : List InventoryRecord) : List InventoryRecord :=
  inv.filter (fun r => pat r.searchThis)

/-- Greedy grouping loop: the current group is `[s, e]` (`e = none` when
open-ended); a record is appended to the current group exactly when its
byte start equals the current group's end plus one, otherwise the current
group is emitted and a new group starts at that record. -/
def groupFrom (s : Nat) (e : Option Nat) : List InventoryRecord → List SubsetGroup
  | [] => [⟨s, e⟩]
  | r :: rs =>
      match e with
      | some ev =>
          if r.byteStart = ev + 1 then groupFrom s r.byteEnd rs
          else ⟨s, some ev⟩ :: groupFrom r.byteStart r.byteEnd rs
      | none => ⟨s, none⟩ :: groupFrom r.byteStart r.byteEnd rs

/-- Modelled from the spec: collapse the matched records (already in byte
start order) into maximal contiguous SubsetGroups. -/
def groupRecords : List InventoryRecord → List SubsetGroup
  | [] => []
  | r :: rs => groupFrom r.byteStart r.byteEnd rs

/-! Range Fetcher.  The remote primary file is modelled as its byte
sequence; an HTTP range request for `[start, end]` (inclusive, `end`
possibly open) returns the corresponding slice. -/

/-- Bytes returned by one HTTP range request against the primary file. -/
def fetchRange (file : List Nat) (g : SubsetGroup) : List Nat :=
  match g.gEnd with
  | some e => (file.drop g.gStart).take (e + 1 - g.gStart)
  | none => file.drop g.gStart

/-- The fault-free network: every range request returns exactly the slice
of the primary file it named. -/
def idealNet (file : List Nat) : SubsetGroup → Option (List Nat) :=
  fun g => some (fetchRange file g)

/-- Expected byte count of one group, with an open-ended group resolved to
the concrete length it actually fetched. -/
def resolvedLen (g : SubsetGroup) (chunk : List Nat) : Nat :=
  match g.gEnd with
  | some e => e + 1 - g.gStart
  | none => chunk.length

/-- Modelled from the spec: fetch every SubsetGroup over the network `net`
(`none` models a group that exhausted its retries) and assemble the
results back-to-back in group order.  A group failure is a fatal
`groupFetchFailed`; after assembly the total byte count must equal the
sum of the groups' resolved lengths, a mismatch being a fatal
`byteCountMismatch`.  On any fatal failure the destination artifact is
left removed-or-marked, never looking complete. -/
def rangeFetcher (net : SubsetGroup → Option (List Nat)) (groups : List SubsetGroup) :
    Except HerbieError (List Nat) × ArtifactState :=
  match mapOpt net groups with
  | none => (.error .groupFetchFailed, .markedIncomplete)
  | some chunks =>
      let total := (chunks.map List.length).sum
      let expected := (List.zipWith resolvedLen groups chunks).sum
      if total = expected then (.ok chunks.flatten, .complete chunks.flatten)
      else (.error .byteCountMismatch, .markedIncomplete)

/-- Bytes of the subset artifact produced for a pattern over an Inventory
when the network is fault-free: the groups' slices concatenated in
ascending start order. -/
def subsetBytes (file : List Nat) (pat : String → Bool) (inv : List InventoryRecord) :
    List Nat :=
  ((groupRecords (selectRecords pat inv)).map (fetchRange file)).flatten

/-- Whole-file retrieval: one unbounded range request from byte zero. -/
def wholeFileBytes (file : List Nat) : List Nat :=
  fetchRange file ⟨0, none⟩

/-- Modelled from the spec: the end-to-end subset operation for a
grammar-A source: parse the index, select and group, then fetch.  Parse
failures abort before any fetch, producing no artifact at all. -/
def runSubsetOpA (net : SubsetGroup → Option (List Nat)) (lines : List String)
    (pat : String → Bool) : Except HerbieError (List Nat) × ArtifactState :=
  match parseGrammarA lines with
  | .error e => (.error e, .absent)
  | .ok inv => rangeFetcher net (groupRecords (selectRecords pat inv))

/-- Modelled from the spec: the idempotence check in front of the Range
Fetcher.  When a complete local artifact already exists and the overwrite
flag is false the local copy is used as-is; otherwise one range request is
issued per group.  The first component counts the network byte-range
requests issued. -/
def downloadIfNeeded (overwrite : Bool) (existing : Option (List Nat))
    (net : SubsetGroup → Option (List Nat)) (groups : List SubsetGroup) :
    Nat × (Except HerbieError (List Nat) × ArtifactState) :=
  match existing with
  | some bs =>
      if overwrite then (groups.length, rangeFetcher net groups)
      else (0, (.ok bs, .complete bs))
  | none => (groups.length, rangeFetcher net groups)

/-! Source Resolver. -/

/-- Modelled from the spec: one candidate source as the resolver's
existence probes see it: its name, whether the primary resource exists,
and whether the index resource exists. -/
structure Candidate where
  name : String
  primaryExists : Bool
  indexExists : Bool
deriving DecidableEq, Repr

/-- A candidate satisfies the resolver when its primary resource exists
and, if subsetting was requested, its index resource exists too; for
whole-file retrieval a primary-only match is sufficient. -/
def qualifies (subsetting : Bool) (c : Candidate) : Bool :=
  c.primaryExists && (!subsetting || c.indexExists)

/-- Modelled from the spec: probe the ordered candidate list and return
the first qualifying Source, or fail with `sourceExhausted` when no
candidate qualifies. -/
def resolveSource (subsetting : Bool) : List Candidate → Except HerbieError Candidate
  | [] => .error .sourceExhausted
  | c :: cs => if qualifies subsetting c then .ok c else resolveSource subsetting cs

/-! Model templates and pattern matching (configuration surface). -/

/-- Modelled from the spec: the read-only per-model descriptor the engine
consumes: a human-readable description and the mapping of product
identifiers to their descriptions. -/
structure ModelTemplate where
  description : String
  products : List (String × String)
deriving DecidableEq, Repr

/-- Modelled from the spec: model template lookup.  User-supplied model
identifiers are lowercased before the registry (whose keys are the
all-lowercase template class names) is consulted. -/
def lookupModel (registry : List (String × ModelTemplate)) (name : String) :
    Option ModelTemplate :=
  (registry.find? (fun e => e.1 == lowerName name)).map (fun e => e.2)

/-- Modelled from the spec: product lookup inside a template; product
identifiers are matched case sensitively, with no normalization. -/
def lookupProduct (t : ModelTemplate) (p : String) : Option String :=
  (t.products.find? (fun e => e.1 == p)).map (fun e => e.2)

/-- Character-list matching of a literal pattern at the head of the
text. -/
def matchHere : List Char → List Char → Bool
  | [], _ => true
  | _ :: _, [] => false
  | a :: as, b :: bs => a == b && matchHere as bs

/-- Character-list occurrence of a literal pattern anywhere in the
text. -/
def occursIn (p s : List Char) : Bool :=
  match s with
  | [] => matchHere p []
  | _ :: rest => matchHere p s || occursIn p rest

/-- Modelled from the spec: literal-substring search matching against a
record's search field, applied exactly as written (case sensitive by
design, since source variable vocabularies are case-sensitive
conventions). -/
def substrMatch (pat s : String) : Bool :=
  occursIn pat.toList s.toList

/-! Concrete scenario data used by the scenario theorems below: an
Inventory with records at byte ranges [0,99], [100,199], [200,299] over a
300-byte primary file, and a demonstration model registry. -/

/-- Scenario Inventory with three records at [0,99], [100,199],
[200,299]. -/
def inv3 : List InventoryRecord :=
  [⟨1, 0, some 99, ":TMP:500 mb:"⟩,
   ⟨2, 100, some 199, ":UGRD:250 mb:"⟩,
   ⟨3, 200, some 299, ":VGRD:250 mb:"⟩]

/-- Scenario pattern matching records 1 and 3 only. -/
def pat13 : String → Bool := fun s => substrMatch ":TMP:" s || substrMatch ":VGRD:" s

/-- Scenario full-coverage pattern. -/
def patAll : String → Bool := fun _ => true

/-- Scenario primary file of 300 distinct bytes. -/
def file300 : List Nat := List.range 300

/-- Demonstration template for the HRRR model, with the documented
case-sensitive product identifiers. -/
def hrrrTemplate : ModelTemplate :=
  ⟨"High-Resolution Rapid Refresh",
   [("sfc", "surface fields"), ("prs", "pressure fields"),
    ("nat", "native fields"), ("subh", "subhourly fields")]⟩

/-- Demonstration registry keyed by the all-lowercase template name. -/
def demoRegistry : List (String × ModelTemplate) := [("hrrr", hrrrTemplate)]

/-! Helper lemmas about the grammar-A parser. -/

/-- Byte ends assigned by `assignEnds` are always well formed: each record
with a successor ends one byte before that successor starts, and the last
record is open. -/
theorem wellFormedEnds_assignEnds : ∀ ps : List RawA, wellFormedEnds (assignEnds ps) = true
  | [] => rfl
  | [_] => rfl
  | p :: q :: rest => by
      have ih := wellFormedEnds_assignEnds (q :: rest)
      simp only [assignEnds, endFor, wellFormedEnds] at ih ⊢
      simpa using ih

/-- Ascending input byte starts survive `assignEnds` unchanged. -/
theorem strictStarts_assignEnds : ∀ ps : List RawA, ascendingA ps = true →
    strictStarts (assignEnds ps) = true
  | [], _ => rfl
  | [_], _ => rfl
  | p :: q :: rest, h => by
      simp only [ascendingA, Bool.and_eq_true, decide_eq_true_eq] at h
      have ih := strictStarts_assignEnds (q :: rest) h.2
      simp only [assignEnds, strictStarts, Bool.and_eq_true, decide_eq_true_eq] at ih ⊢
      exact ⟨h.1.2, ih⟩

/-- The full Inventory invariant holds for `assignEnds` output whenever
the input lines were in ascending sequence and byte order. -/
theorem invariantOk_assignEnds : ∀ ps : List RawA, ascendingA ps = true →
    invariantOk (assignEnds ps) = true
  | [], _ => rfl
  | [_], _ => rfl
  | p :: q :: rest, h => by
      simp only [ascendingA, Bool.and_eq_true, decide_eq_true_eq] at h
      have ih := invariantOk_assignEnds (q :: rest) h.2
      simp only [assignEnds, endFor, invariantOk, Bool.and_eq_true, decide_eq_true_eq] at ih ⊢
      refine ⟨⟨⟨h.1.1, h.1.2⟩, ?_⟩, ih⟩
      omega

/-- Inversion of a successful grammar-A parse. -/
theorem parseGrammarA_ok {lines : List String} {inv : List InventoryRecord}
    (h : parseGrammarA lines = .ok inv) :
    ∃ ps, mapOpt parseLineA lines = some ps ∧ ascendingA ps = true ∧ inv = assignEnds ps := by
  unfold parseGrammarA at h
  split at h
  · exact absurd h (by simp)
  · next ps hm =>
      split at h
      · next ha => exact ⟨ps, hm, ha, by injection h with h2; exact h2.symm⟩
      · next ha => exact absurd h (by simp)

/-- C3: for every grammar-A index content the parser accepts, each record
with a successor is assigned the byte end equal to the next record's byte
start minus one, and exactly the final record is given an open byte end
(fetch to end of file). -/
theorem C3_grammarA_byte_end_assignment (lines : List String) (inv : List InventoryRecord)
    (h : parseGrammarA lines = .ok inv) : wellFormedEnds inv = true := by
  obtain ⟨ps, _, _, hinv⟩ := parseGrammarA_ok h
  rw [hinv]
  exact wellFormedEnds_assignEnds ps

/-- Witness for C3 on the first two lines of the documented HRRR wgrib2
index example. -/
theorem C3_grammarA_byte_end_assignment_witness :
    wellFormedEnds
      [⟨1, 0, some 354858, "d=2021072701:REFC:entire atmosphere:anl:"⟩,
       ⟨2, 354859, none, "d=2021072701:RETOP:cloud top:anl:"⟩] = true :=
  C3_grammarA_byte_end_assignment
    ["1:0:d=2021072701:REFC:entire atmosphere:anl:",
     "2:354859:d=2021072701:RETOP:cloud top:anl:"]
    [⟨1, 0, some 354858, "d=2021072701:REFC:entire atmosphere:anl:"⟩,
     ⟨2, 354859, none, "d=2021072701:RETOP:cloud top:anl:"⟩]
    rfl

/-- A single failing element makes the whole fallible traversal fail. -/
theorem mapOpt_eq_none_of_mem {f : α → Option β} :
    ∀ {l : List α} {a : α}, a ∈ l → f a = none → mapOpt f l = none := by
  intro l
  induction l with
  | nil => intro a ha _; cases ha
  | cons x t ih =>
      intro a ha hf
      rcases List.mem_cons.mp ha with rfl | hmem
      · simp [mapOpt, hf]
      · rw [mapOpt, ih hmem hf]
        cases f x <;> rfl

/-- Counting: the elements a fallible map drops are exactly the ones on
which it fails. -/
theorem length_sub_filterMap (f : α → Option β) (l : List α) :
    l.length - (l.filterMap f).length = (l.filter (fun x => (f x).isNone)).length := by
  induction l with
  | nil => rfl
  | cons a t ih =>
      have hle := List.length_filterMap_le f t
      cases h : f a with
      | none => simp [List.filterMap_cons, h, List.filter_cons]; omega
      | some b => simp [List.filterMap_cons, h, List.filter_cons]; omega

/-- Numbering grammar-B records preserves their byte offsets in order. -/
theorem numberRecords_map_byteStart : ∀ (k : Nat) (l : List RawB),
    (numberRecords k l).map (fun r => r.byteStart) = l.map (fun r => r.off)
  | _, [] => rfl
  | k, r :: rest => by
      simp only [numberRecords, List.map_cons]
      rw [numberRecords_map_byteStart (k + 1) rest]

/-- C4: parser failure behaviour depends on the grammar.  For grammar A a
single unparsable line makes the whole parse fail with `indexCorrupt`, no
Inventory is returned, and the end-to-end subset operation produces no
artifact at all.  For grammar B an unparsable line is skipped, the
Inventory of the remaining records (their byte offsets, up to the byte
ordering the parser restores) is still returned, and the reported count of
skipped lines is exactly the number of unparsable lines. -/
theorem C4_parser_failure_behaviour :
    (∀ lines : List String, (∃ l ∈ lines, parseLineA l = none) →
        parseGrammarA lines = .error .indexCorrupt) ∧
    (∀ (net : SubsetGroup → Option (List Nat)) (lines : List String) (pat : String → Bool),
        (∃ l ∈ lines, parseLineA l = none) →
        runSubsetOpA net lines pat = (.error .indexCorrupt, .absent)) ∧
    (∀ lines : List String,
        (parseGrammarB lines).2 = (lines.filter (fun l => (parseLineB l).isNone)).length ∧
        ((parseGrammarB lines).1.map (fun r => r.byteStart)).Perm
          ((lines.filterMap parseLineB).map (fun r => r.off))) := by
  have hA : ∀ lines : List String, (∃ l ∈ lines, parseLineA l = none) →
      parseGrammarA lines = .error .indexCorrupt := by
    intro lines ⟨l, hmem, hfail⟩
    unfold parseGrammarA
    rw [mapOpt_eq_none_of_mem hmem hfail]
  refine ⟨hA, ?_, ?_⟩
  · intro net lines pat hex
    unfold runSubsetOpA
    rw [hA lines hex]
  · intro lines
    constructor
    · exact length_sub_filterMap parseLineB lines
    · show ((numberRecords 1 (sortSpans (lines.filterMap parseLineB))).map
          (fun r => r.byteStart)).Perm _
      rw [numberRecords_map_byteStart]
      exact (List.perm_insertionSort offLe (lines.filterMap parseLineB)).map _

/-- Witness for C4: one corrupt wgrib2-style line aborts grammar A and
the whole operation, while a grammar-B input with one bad line still
yields the good records and reports one skipped line. -/
theorem C4_parser_failure_behaviour_witness :
    parseGrammarA ["1:0:ok:", "garbage line"] = .error .indexCorrupt ∧
    runSubsetOpA (fun _ => some []) ["1:0:ok:", "garbage line"] (fun _ => true) =
      (.error .indexCorrupt, .absent) ∧
    (parseGrammarB ["0,243,tp", "not a record", "243,243,tp"]).2 =
      (["0,243,tp", "not a record", "243,243,tp"].filter
        (fun l => (parseLineB l).isNone)).length := by
  refine ⟨?_, ?_, ?_⟩
  · exact C4_parser_failure_behaviour.1 ["1:0:ok:", "garbage line"]
      ⟨"garbage line", by decide, by decide⟩
  · exact C4_parser_failure_behaviour.2.1 (fun _ => some []) ["1:0:ok:", "garbage line"]
      (fun _ => true) ⟨"garbage line", by decide, by decide⟩
  · exact (C4_parser_failure_behaviour.2.2 ["0,243,tp", "not a record", "243,243,tp"]).1

/-- C5: the Source Resolver returns the first candidate, in rank order,
whose primary resource exists and whose index resource also exists when
subsetting was requested (a primary-only match sufficing otherwise), and
fails with `sourceExhausted` exactly when no candidate qualifies.  In the
documented scenario with candidates [A, B] where A lacks its index, a
subsetting request resolves to B. -/
theorem C5_resolver_first_qualifying :
    (∀ (subsetting : Bool) (cs : List Candidate),
        resolveSource subsetting cs =
          match cs.find? (qualifies subsetting) with
          | some c => .ok c
          | none => .error .sourceExhausted) ∧
    resolveSource true [⟨"A", true, false⟩, ⟨"B", true, true⟩] = .ok ⟨"B", true, true⟩ := by
  constructor
  · intro subsetting cs
    induction cs with
    | nil => rfl
    | cons c rest ih =>
        by_cases hq : qualifies subsetting c
        · simp [resolveSource, List.find?, hq]
        · simp only [Bool.not_eq_true] at hq
          simp [resolveSource, List.find?, hq]
          exact ih
  · rfl

/-- Witness for C5 exercising the general characterization on the
documented two-candidate scenario. -/
theorem C5_resolver_first_qualifying_witness :
    resolveSource true [⟨"A", true, false⟩, ⟨"B", true, true⟩] =
      match [Candidate.mk "A" true false, Candidate.mk "B" true true].find?
          (qualifies true) with
      | some c => .ok c
      | none => .error .sourceExhausted :=
  C5_resolver_first_qualifying.1 true [⟨"A", true, false⟩, ⟨"B", true, true⟩]

/-- C8: the Subset Selector is deterministic (two patterns that agree on
every search field produce identical matches and identical groups),
order-preserving (the matches are a subsequence of the Inventory in its
original order), and idempotent (re-selecting from the matched records
changes nothing, in records or in groups). -/
theorem C8_selector_deterministic_idempotent :
    (∀ (p q : String → Bool) (inv : List InventoryRecord), (∀ s, p s = q s) →
        selectRecords p inv = selectRecords q inv ∧
        groupRecords (selectRecords p inv) = groupRecords (selectRecords q inv)) ∧
    (∀ (p : String → Bool) (inv : List InventoryRecord),
        (selectRecords p inv).Sublist inv) ∧
    (∀ (p : String → Bool) (inv : List InventoryRecord),
        selectRecords p (selectRecords p inv) = selectRecords p inv ∧
        groupRecords (selectRecords p (selectRecords p inv)) =
          groupRecords (selectRecords p inv)) := by
  refine ⟨?_, ?_, ?_⟩
  · intro p q inv h
    have hsel : selectRecords p inv = selectRecords q inv :=
      List.filter_congr (fun a _ => h a.searchThis)
    exact ⟨hsel, by rw [hsel]⟩
  · intro p inv
    exact List.filter_sublist inv
  · intro p inv
    have hidem : selectRecords p (selectRecords p inv) = selectRecords p inv := by
      unfold selectRecords
      rw [List.filter_filter]
      simp
    exact ⟨hidem, by rw [hidem]⟩

/-- Witness for C8 at a concrete inventory and two syntactically distinct
but pointwise-equal patterns. -/
theorem C8_selector_deterministic_idempotent_witness :
    selectRecords (fun s => substrMatch ":TMP:" s)
        [⟨1, 0, some 99, ":TMP:500 mb:"⟩, ⟨2, 100, none, ":UGRD:250 mb:"⟩] =
      selectRecords (fun s => substrMatch ":TMP:" s || false)
        [⟨1, 0, some 99, ":TMP:500 mb:"⟩, ⟨2, 100, none, ":UGRD:250 mb:"⟩] :=
  (C8_selector_deterministic_idempotent.1 _ _
    [⟨1, 0, some 99, ":TMP:500 mb:"⟩, ⟨2, 100, none, ":UGRD:250 mb:"⟩]
    (fun s => by simp)).1

/-- C9: when a complete local artifact exists and overwrite is configured
off, re-running the download issues zero network byte-range requests and
returns the existing artifact unchanged. -/
theorem C9_cached_artifact_no_requests (bs : List Nat)
    (net : SubsetGroup → Option (List Nat)) (groups : List SubsetGroup) :
    downloadIfNeeded false (some bs) net groups = (0, (.ok bs, .complete bs)) := rfl

/-- C2: the Subset Selector groups byte-start-sorted matches greedily (a
record extends the current group exactly when its byte start equals the
group's end plus one, and otherwise starts a new group); on the scenario
Inventory [0,99], [100,199], [200,299] a pattern matching records 1 and 3
yields the two groups [0,99] and [200,299] with an output artifact of
exactly 200 bytes carrying the two records in original order, while a
pattern matching all three yields the single group [0,299] whose output
equals the whole-file bytes. -/
theorem C2_greedy_grouping_scenarios :
    (∀ (s ev : Nat) (r : InventoryRecord) (rs : List InventoryRecord),
        (r.byteStart = ev + 1 →
          groupFrom s (some ev) (r :: rs) = groupFrom s r.byteEnd rs) ∧
        (r.byteStart ≠ ev + 1 →
          groupFrom s (some ev) (r :: rs) =
            ⟨s, some ev⟩ :: groupFrom r.byteStart r.byteEnd rs)) ∧
    (groupRecords (selectRecords pat13 inv3) = [⟨0, some 99⟩, ⟨200, some 299⟩] ∧
     subsetBytes file300 pat13 inv3 = file300.take 100 ++ file300.drop 200 ∧
     (subsetBytes file300 pat13 inv3).length = 200) ∧
    (groupRecords (selectRecords patAll inv3) = [⟨0, some 299⟩] ∧
     subsetBytes file300 patAll inv3 = wholeFileBytes file300) := by
  refine ⟨?_, ⟨?_, ?_, ?_⟩, ?_, ?_⟩
  · intro s ev r rs
    constructor
    · intro h; simp [groupFrom, h]
    · intro h; simp [groupFrom, h]
  · decide
  · decide
  · decide
  · decide
  · decide

/-- Witness for C2 exercising both branches of the greedy step at
concrete inputs. -/
theorem C2_greedy_grouping_scenarios_witness :
    groupFrom 0 (some 99) [⟨2, 100, some 199, "x"⟩] = groupFrom 0 (some 199) [] ∧
    groupFrom 0 (some 99) [⟨3, 200, some 299, "y"⟩] =
      ⟨0, some 99⟩ :: groupFrom 200 (some 299) [] :=
  ⟨(C2_greedy_grouping_scenarios.1 0 99 ⟨2, 100, some 199, "x"⟩ []).1 rfl,
   (C2_greedy_grouping_scenarios.1 0 99 ⟨3, 200, some 299, "y"⟩ []).2 (by decide)⟩

/-- C10: model identifiers are lowercased before template lookup, so any
capitalization of a model name resolves to the same template, while
product identifiers and subset search patterns are matched with no case
normalization at all. -/
theorem C10_model_case_insensitive_product_sensitive :
    (∀ (registry : List (String × ModelTemplate)) (a b : String),
        lowerName a = lowerName b →
        lookupModel registry a = lookupModel registry b) ∧
    (lookupModel demoRegistry "HRRR" = some hrrrTemplate ∧
     lookupModel demoRegistry "HrRr" = some hrrrTemplate ∧
     lookupModel demoRegistry "hrrr" = some hrrrTemplate) ∧
    (lookupProduct hrrrTemplate "sfc" = some "surface fields" ∧
     lookupProduct hrrrTemplate "SFC" = none) ∧
    (substrMatch ":TMP:" ":TMP:500 mb:" = true ∧
     substrMatch ":tmp:" ":TMP:500 mb:" = false) := by
  refine ⟨?_, ⟨?_, ?_, ?_⟩, ⟨?_, ?_⟩, ?_, ?_⟩
  · intro registry a b h
    unfold lookupModel
    rw [h]
  · decide
  · decide
  · decide
  · decide
  · decide
  · decide
  · decide

/-- Witness for C10: two capitalizations of the model name resolve
identically through the general lowercasing law. -/
theorem C10_model_case_insensitive_product_sensitive_witness :
    lookupModel demoRegistry "HRRR" = lookupModel demoRegistry "hrrr" :=
  C10_model_case_insensitive_product_sensitive.1 demoRegistry "HRRR" "hrrr" (by decide)

/-- C6: after assembly the Range Fetcher's total byte count equals the
sum of each group's resolved length (end − start + 1, with open-ended
groups resolved to the length actually fetched); a mismatch fails with
`byteCountMismatch`, a group that exhausted retries fails with
`groupFetchFailed`, and on every fatal failure the destination artifact
is removed or marked incomplete, never left looking like a complete
file. -/
theorem C6_byte_count_and_artifact_discipline
    (net : SubsetGroup → Option (List Nat)) (groups : List SubsetGroup) :
    (∀ bs, (rangeFetcher net groups).1 = .ok bs →
        (rangeFetcher net groups).2 = .complete bs ∧
        ∃ chunks, mapOpt net groups = some chunks ∧ bs = chunks.flatten ∧
          bs.length = (List.zipWith resolvedLen groups chunks).sum) ∧
    (∀ chunks, mapOpt net groups = some chunks →
        (chunks.map List.length).sum ≠ (List.zipWith resolvedLen groups chunks).sum →
        rangeFetcher net groups = (.error .byteCountMismatch, .markedIncomplete)) ∧
    (mapOpt net groups = none →
        rangeFetcher net groups = (.error .groupFetchFailed, .markedIncomplete)) ∧
    (∀ e, (rangeFetcher net groups).1 = .error e →
        ∀ bs, (rangeFetcher net groups).2 ≠ .complete bs) := by
  cases hm : mapOpt net groups with
  | none =>
      refine ⟨?_, ?_, ?_, ?_⟩
      · intro bs hok
        rw [show rangeFetcher net groups =
            (.error .groupFetchFailed, .markedIncomplete) from by
          unfold rangeFetcher; rw [hm]] at hok
        cases hok
      · intro chunks hc; cases hc
      · intro _; unfold rangeFetcher; rw [hm]
      · intro e _ bs
        rw [show rangeFetcher net groups =
            (.error .groupFetchFailed, .markedIncomplete) from by
          unfold rangeFetcher; rw [hm]]
        intro hcontra; cases hcontra
  | some chunks =>
      have hbody : rangeFetcher net groups =
          (if (chunks.map List.length).sum = (List.zipWith resolvedLen groups chunks).sum
           then (.ok chunks.flatten, .complete chunks.flatten)
           else (.error .byteCountMismatch, .markedIncomplete)) := by
        unfold rangeFetcher; rw [hm]
      by_cases hsum :
          (chunks.map List.length).sum = (List.zipWith resolvedLen groups chunks).sum
      · rw [if_pos hsum] at hbody
        refine ⟨?_, ?_, ?_, ?_⟩
        · intro bs hok
          rw [hbody] at hok ⊢
          injection hok with hok
          refine ⟨by rw [← hok], chunks, rfl, hok.symm, ?_⟩
          rw [← hok, List.length_flatten, hsum]
        · intro chunks2 hc
          injection hc with hc; rw [← hc]
          intro hne; exact absurd hsum hne
        · intro hnone; cases hnone
        · intro e he
          rw [hbody] at he; cases he
      · rw [if_neg hsum] at hbody
        refine ⟨?_, ?_, ?_, ?_⟩
        · intro bs hok; rw [hbody] at hok; cases hok
        · intro chunks2 hc
          injection hc with hc; rw [← hc]
          intro _; exact hbody
        · intro hnone; cases hnone
        · intro e _ bs
          rw [hbody]; intro hcontra; cases hcontra

/-- Witness for C6: a one-group fetch whose single chunk has the declared
length assembles completely with a verified byte count, on concrete
data. -/
theorem C6_byte_count_and_artifact_discipline_witness :
    (rangeFetcher (fun _ => some [7, 9]) [⟨4, some 5⟩]).2 = .complete [7, 9] ∧
    ∃ chunks, mapOpt (fun _ => some [7, 9]) [(⟨4, some 5⟩ : SubsetGroup)] = some chunks ∧
      [7, 9] = chunks.flatten ∧
      ([7, 9] : List Nat).length =
        (List.zipWith resolvedLen [⟨4, some 5⟩] chunks).sum :=
  (C6_byte_count_and_artifact_discipline (fun _ => some [7, 9]) [⟨4, some 5⟩]).1
    [7, 9] rfl

/-- In a list with strictly increasing byte starts, every record after
the first has a positive byte start. -/
theorem strictStarts_tail_pos : ∀ (r : InventoryRecord) (rest : List InventoryRecord),
    strictStarts (r :: rest) = true → ∀ x ∈ rest, 0 < x.byteStart
  | _, [], _, _, hx => by cases hx
  | r, s :: rest, h, x, hx => by
      simp only [strictStarts, Bool.and_eq_true, decide_eq_true_eq] at h
      rcases List.mem_cons.mp hx with rfl | hmem
      · omega
      · exact strictStarts_tail_pos s rest h.2 x hmem

/-- Greedy grouping of a fully contiguous record chain whose final record
is open-ended collapses everything into one open-ended group. -/
theorem groupFrom_chain : ∀ (rest : List InventoryRecord) (st : Nat) (r : InventoryRecord),
    wellFormedEnds (r :: rest) = true → (∀ x ∈ rest, 0 < x.byteStart) →
    groupFrom st r.byteEnd rest = [⟨st, none⟩]
  | [], st, r, hwf, _ => by
      simp only [wellFormedEnds, beq_iff_eq] at hwf
      rw [hwf]
      rfl
  | s :: rest, st, r, hwf, hpos => by
      simp only [wellFormedEnds, Bool.and_eq_true, beq_iff_eq] at hwf
      have hs : 0 < s.byteStart := hpos s (List.mem_cons_self s rest)
      have hcond : s.byteStart = s.byteStart - 1 + 1 := by omega
      rw [hwf.1]
      show groupFrom st (some (s.byteStart - 1)) (s :: rest) = [⟨st, none⟩]
      rw [groupFrom, if_pos hcond]
      have hwf2 : wellFormedEnds (s :: rest) = true := by
        simpa [wellFormedEnds, Bool.and_eq_true, beq_iff_eq] using hwf.2
      exact groupFrom_chain rest st s hwf2
        (fun x hx => hpos x (List.mem_cons_of_mem s hx))

/-- C1: for every grammar-A index the parser accepts describing the whole
primary file (first record at byte zero), fetching every SubsetGroup of a
full-coverage pattern and concatenating the chunks in ascending start
order is byte-identical to whole-file retrieval, and the fault-free
fetch completes with exactly those bytes. -/
theorem C1_full_coverage_subset_is_whole_file (lines : List String)
    (inv : List InventoryRecord) (file : List Nat) (pat : String → Bool)
    (r : InventoryRecord) (rest : List InventoryRecord)
    (hparse : parseGrammarA lines = .ok inv) (hinv : inv = r :: rest)
    (hzero : r.byteStart = 0) (hfull : ∀ x ∈ inv, pat x.searchThis = true) :
    subsetBytes file pat inv = wholeFileBytes file ∧
    rangeFetcher (idealNet file) (groupRecords (selectRecords pat inv)) =
      (.ok (wholeFileBytes file), .complete (wholeFileBytes file)) := by
  obtain ⟨ps, hmap, hasc, hassign⟩ := parseGrammarA_ok hparse
  have hsel : selectRecords pat inv = inv :=
    List.filter_eq_self.mpr (fun a ha => hfull a ha)
  have hwf : wellFormedEnds inv = true := by
    rw [hassign]; exact wellFormedEnds_assignEnds ps
  have hss : strictStarts inv = true := by
    rw [hassign]; exact strictStarts_assignEnds ps hasc
  have hpos : ∀ x ∈ rest, 0 < x.byteStart :=
    strictStarts_tail_pos r rest (hinv ▸ hss)
  have hgroups : groupRecords (selectRecords pat inv) = [⟨0, none⟩] := by
    rw [hsel, hinv, groupRecords, ← hzero]
    exact groupFrom_chain rest r.byteStart r (hinv ▸ hwf) hpos
  have hbytes : subsetBytes file pat inv = wholeFileBytes file := by
    unfold subsetBytes
    rw [hgroups]
    simp [wholeFileBytes]
  refine ⟨hbytes, ?_⟩
  have hnet : mapOpt (idealNet file) [(⟨0, none⟩ : SubsetGroup)] = some [file] := by
    simp [mapOpt, idealNet, fetchRange]
  have hone : rangeFetcher (idealNet file) [(⟨0, none⟩ : SubsetGroup)] =
      (.ok file, .complete file) := by
    unfold rangeFetcher
    rw [hnet]
    simp [resolvedLen]
  rw [hgroups, hone]
  simp [wholeFileBytes, fetchRange]

/-- Witness for C1 on a tiny two-record grammar-A index covering an
eight-byte file. -/
theorem C1_full_coverage_subset_is_whole_file_witness :
    subsetBytes (List.range 8) (fun _ => true)
        [⟨1, 0, some 4, "a:"⟩, ⟨2, 5, none, "b:"⟩] = wholeFileBytes (List.range 8) ∧
    rangeFetcher (idealNet (List.range 8))
        (groupRecords (selectRecords (fun _ => true)
          [⟨1, 0, some 4, "a:"⟩, ⟨2, 5, none, "b:"⟩])) =
      (.ok (wholeFileBytes (List.range 8)),
       .complete (wholeFileBytes (List.range 8))) :=
  C1_full_coverage_subset_is_whole_file ["1:0:a:", "2:5:b:"]
    [⟨1, 0, some 4, "a:"⟩, ⟨2, 5, none, "b:"⟩] (List.range 8) (fun _ => true)
    ⟨1, 0, some 4, "a:"⟩ [⟨2, 5, none, "b:"⟩] rfl rfl rfl (by decide)

/-- A grammar-B line only parses with a positive explicit length. -/
theorem parseLineB_pos {l : String} {r : RawB} (h : parseLineB l = some r) : 0 < r.len := by
  unfold parseLineB at h
  split at h
  · split at h
    · split at h
      · cases h
      · next hne =>
          injection h with h2
          rw [← h2]
          exact Nat.pos_of_ne_zero hne
    · cases h
  · cases h

/-- Numbering a byte-sorted, pairwise-disjoint list of positive-length
spans from any starting sequence number yields an Inventory satisfying
the full invariant. -/
theorem invariantOk_numberRecords : ∀ l : List RawB,
    List.Sorted offLe l → l.Pairwise disjointSpans → (∀ r ∈ l, 0 < r.len) →
    ∀ k, invariantOk (numberRecords k l) = true
  | [], _, _, _, _ => rfl
  | [_], _, _, _, _ => rfl
  | a :: b :: rest, hs, hd, hl, k => by
      have hab : a.off ≤ b.off := (List.sorted_cons.mp hs).1 b (List.mem_cons_self b rest)
      have hdis : a.off + a.len ≤ b.off ∨ b.off + b.len ≤ a.off :=
        (List.pairwise_cons.mp hd).1 b (List.mem_cons_self b rest)
      have hla : 0 < a.len := hl a (List.mem_cons_self a _)
      have hlb : 0 < b.len := hl b (List.mem_cons.mpr (Or.inr (List.mem_cons_self b rest)))
      have hstep : a.off + a.len ≤ b.off := by
        rcases hdis with h | h
        · exact h
        · omega
      have ih := invariantOk_numberRecords (b :: rest) (List.sorted_cons.mp hs).2
        (List.pairwise_cons.mp hd).2
        (fun r hr => hl r (List.mem_cons_of_mem a hr)) (k + 1)
      simp only [numberRecords, invariantOk, Bool.and_eq_true, decide_eq_true_eq]
      refine ⟨⟨⟨by omega, by omega⟩, by omega⟩, ?_⟩
      simpa only [numberRecords] using ih

/-- C7: every Inventory the Index Parser produces satisfies the
invariant: records totally ordered by sequence number and byte start,
no overlap between consecutive byte ranges, and at most one open byte end
(the last record's).  Grammar A guarantees this for every accepted input;
grammar B, whose lines need not arrive in monotonic order, guarantees it
for every input whose parsable byte spans are valid (pairwise disjoint)
absolute spans of the primary file. -/
theorem C7_parser_inventory_invariant :
    (∀ (lines : List String) (inv : List InventoryRecord),
        parseGrammarA lines = .ok inv → invariantOk inv = true) ∧
    (∀ lines : List String, validSpansB lines →
        invariantOk (parseGrammarB lines).1 = true) := by
  constructor
  · intro lines inv h
    obtain ⟨ps, _, hasc, hassign⟩ := parseGrammarA_ok h
    rw [hassign]
    exact invariantOk_assignEnds ps hasc
  · intro lines hvalid
    show invariantOk (numberRecords 1 (sortSpans (lines.filterMap parseLineB))) = true
    apply invariantOk_numberRecords
    · exact List.sorted_insertionSort offLe _
    · exact ((List.perm_insertionSort offLe _).pairwise_iff
        (fun h => h.elim Or.inr Or.inl)).mpr hvalid
    · intro r hr
      have hr2 : r ∈ lines.filterMap parseLineB :=
        ((List.perm_insertionSort offLe _).mem_iff).mp hr
      obtain ⟨l, _, hpl⟩ := List.mem_filterMap.mp hr2
      exact parseLineB_pos hpl

/-- Witness for C7: a two-line wgrib2-style index and an out-of-order
two-line ecCodes-style index both produce invariant-satisfying
Inventories. -/
theorem C7_parser_inventory_invariant_witness :
    invariantOk
      [⟨1, 0, some 354858, "d=2021072701:REFC:entire atmosphere:anl:"⟩,
       ⟨2, 354859, none, "d=2021072701:RETOP:cloud top:anl:"⟩] = true ∧
    invariantOk (parseGrammarB ["243,243,2t", "0,243,tp"]).1 = true :=
  ⟨C7_parser_inventory_invariant.1
      ["1:0:d=2021072701:REFC:entire atmosphere:anl:",
       "2:354859:d=2021072701:RETOP:cloud top:anl:"]
      [⟨1, 0, some 354858, "d=2021072701:REFC:entire atmosphere:anl:"⟩,
       ⟨2, 354859, none, "d=2021072701:RETOP:cloud top:anl:"⟩] rfl,
   C7_parser_inventory_invariant.2 ["243,243,2t", "0,243,tp"]
     (by show (["243,243,2t", "0,243,tp"].filterMap parseLineB).Pairwise disjointSpans
         decide)⟩

end Herbie
